import Mathlib

/-!
Verification development for the fitness-coach planning workflow core.

The Python source is shallowly embedded: JSON values become an inductive
`Json`, Python dicts become insertion-ordered association lists, each
agent's `process` becomes a Lean function (returning `Except` when the
Python code can let an exception escape), the LangGraph engine becomes a
fuel-indexed interpreter over node names, and the on-disk store becomes a
record of association lists.  The LLM call (`chain.invoke`) and
`json.loads` are external effects: an invocation outcome is a value of
`LLMOutcome` and a parse is an explicit function argument, so theorems
quantify over every possible service behaviour.
-/

/-- JSON values, the shape of the data `json.loads` can produce. -/
inductive Json where
  | null
  | bool (b : Bool)
  | num (n : Int)
  | str (s : String)
  | arr (xs : List Json)
  | obj (kvs : List (String × Json))

/-- A Python dict holding JSON values (insertion-ordered association list). -/
abbrev JsonObj := List (String × Json)

/-- `d[k]` lookup on a dict: the value stored at key `k`, if present. -/
def objGet (kvs : JsonObj) (k : String) : Option Json :=
  (kvs.find? (fun p => p.1 == k)).map (fun p => p.2)

/-- `k in d` membership test on a dict. -/
def objHas (kvs : JsonObj) (k : String) : Bool :=
  kvs.any (fun p => p.1 == k)

/-- `d[k] = v` assignment on a dict: update in place if the key exists,
append at the end otherwise (Python insertion-order semantics). -/
def objSet (kvs : JsonObj) (k : String) (v : Json) : JsonObj :=
  if objHas kvs k then
    kvs.map (fun p => if p.1 == k then (k, v) else p)
  else
    kvs ++ [(k, v)]

/-- Python truthiness of a JSON value (`if x:`). -/
def pyTruthy : Json → Bool
  | .null => false
  | .bool b => b
  | .num n => n != 0
  | .str s => s != ""
  | .arr xs => !xs.isEmpty
  | .obj kvs => !kvs.isEmpty

/-- `str.lower()` over ASCII, enough for the workout type names. -/
def strLower (s : String) : String :=
  String.mk (s.data.map Char.toLower)

/-- `str.find(c)` : index of the first occurrence of `c`, `none` for Python's `-1`. -/
def strFindIdx (s : String) (c : Char) : Option Nat :=
  s.data.findIdx? (fun x => x == c)

/-- `str.rfind(c)` : index of the last occurrence of `c`, `none` for Python's `-1`. -/
def strRFindIdx (s : String) (c : Char) : Option Nat :=
  match s.data.reverse.findIdx? (fun x => x == c) with
  | some i => some (s.data.length - 1 - i)
  | none => none

/-- Python slice `s[a:b]` (with `0 ≤ a ≤ b`). -/
def pySlice (s : String) (a b : Nat) : String :=
  String.mk ((s.data.drop a).take (b - a))

/-- `response.strip().startswith('{')`: the first non-whitespace character
is an opening brace. -/
def stripStartsWithBrace (s : String) : Bool :=
  match s.data.dropWhile Char.isWhitespace with
  | [] => false
  | c :: _ => c == '{'

/-- One outcome of `chain.invoke` against the Text Completion Service:
either the call raises (carrying the exception text) or it returns the
generated text. -/
inductive LLMOutcome where
  | throws (msg : String)
  | returns (text : String)

/-- Outcome of a Plan Store save call issued by a stage. -/
inductive SaveOutcome where
  | ok
  | raises (msg : String)

/-- A message on the LangGraph `messages` channel.  Each AI message the
agents append is represented by a constructor carrying the data that the
source interpolates into the message text (the `json.dumps` rendering of
dict payloads is abstracted). -/
inductive Msg where
  | human (content : String)
  | profileProcessed (profile : Json)
  | profileUpdated (profile : Json)
  | macroPlanCreated (plan : String)
  | weeklyScheduleCreated (schedule : JsonObj)
  | microFallback (err : String)
  | scheduleOptimized (response : String)
  | feedbackAnalyzed (analysis : String)

/-- `message.content` as read by agents scanning the messages list.  Faithful
for `HumanMessage`; for AI messages whose source text interpolates a
`json.dumps` rendering, the rendering is abstracted to a fixed prefix. -/
def msgContent : Msg → String
  | .human c => c
  | .profileProcessed _ => "Profile processed and saved"
  | .profileUpdated _ => "Profile updated successfully"
  | .macroPlanCreated p => "Macro training plan created:\n\n" ++ p
  | .weeklyScheduleCreated _ => "Weekly schedule created successfully"
  | .microFallback e => "Created basic fallback schedule due to error: " ++ e
  | .scheduleOptimized r => "Schedule optimized for your availability:\n\n" ++ r
  | .feedbackAnalyzed a => "Feedback analyzed and processed:\n\n" ++ a

/-- `isinstance(message, HumanMessage)`. -/
def isHumanMsg : Msg → Bool
  | .human _ => true
  | _ => false

/-- The user availability mapping: weekday name to an availability
descriptor dict (available flag, preferred time, duration), per the
PlanState data model. -/
abbrev Availability := List (String × JsonObj)

/-- `user_availability.get(day, {})`. -/
def availGet (ua : Availability) (day : String) : JsonObj :=
  ((ua.find? (fun p => p.1 == day)).map (fun p => p.2)).getD []

/-- The workflow `State` TypedDict threaded through the graph.
`storage` is reduced to the `if state.get("storage")` test the agents
perform; the store's behaviour at each call is supplied separately. -/
structure WState where
  user_profile : Option Json
  user_id : Option String
  current_macro_plan : Option String
  current_micro_plan : Option Json
  user_availability : Availability
  active_schedule : Option JsonObj
  schedule_history : List JsonObj
  latest_feedback : Option JsonObj
  feedback_history : List JsonObj
  workflow_stage : String
  messages : List Msg
  hasStorage : Bool

/-! ### MicroPlannerAgent -/

/-- The seven canonical weekday keys (`required_days`). -/
def requiredDays : List String :=
  ["Monday", "Tuesday", "Wednesday", "Thursday", "Friday", "Saturday", "Sunday"]

/-- The six fields every daily workout record must carry (`required_fields`). -/
def requiredFields : List String :=
  ["type", "duration", "focus", "intensity", "details", "location"]

/-- The rest-day record used both by `_create_fallback_schedule` for
unavailable days and by `_validate_schedule` for missing days. -/
def restDay : JsonObj :=
  [("type", .str "Rest"), ("duration", .str "N/A"), ("focus", .str "Recovery"),
   ("intensity", .str "Rest"), ("details", .str "Rest and recovery day"),
   ("location", .str "N/A")]

/-- One step of `_validate_schedule`'s field loop:
`if field not in day_workout: day_workout[field] = "N/A"`. -/
def fillField (acc : JsonObj) (f : String) : JsonObj :=
  if objHas acc f then acc else acc ++ [(f, .str "N/A")]

/-- The inner loop of `_validate_schedule`: fill each missing required
field of a day's record with `"N/A"`. -/
def fillRequiredFields (w : JsonObj) : JsonObj :=
  requiredFields.foldl fillField w

/-- The per-day body of `_validate_schedule`: a present dict-valued day is
kept with its missing fields filled, anything else becomes the rest record. -/
def validateDay (schedule : JsonObj) (day : String) : String × Json :=
  match objGet schedule day with
  | some (.obj w) => (day, Json.obj (fillRequiredFields w))
  | _ => (day, Json.obj restDay)

/-- `MicroPlannerAgent._validate_schedule`. -/
def validate_schedule (schedule : JsonObj) : JsonObj :=
  requiredDays.map (validateDay schedule)

/-- The round-robin list of `_create_fallback_schedule` (`workout_types`). -/
def workout_types : List String := ["Strength", "Cardio", "Flexibility"]

/-- The workout record `_create_fallback_schedule` builds for an available day. -/
def fallbackWorkout (wt : String) (dur : Json) : JsonObj :=
  [("type", .str wt), ("duration", dur), ("focus", .str (wt ++ " training")),
   ("intensity", .str "Moderate"),
   ("details", .str ("Basic " ++ strLower wt ++ " workout routine")),
   ("location", .str "Home or Gym")]

/-- `MicroPlannerAgent._create_fallback_schedule`: round-robin over
`workout_types`, advancing the index only on available days; unavailable
days get the rest record. -/
def create_fallback_schedule (ua : Availability) : JsonObj :=
  (requiredDays.foldl
    (fun (acc : JsonObj × Nat) day =>
      let day_avail := availGet ua day
      if pyTruthy ((objGet day_avail "available").getD (.bool false)) then
        let wt := workout_types.getD (acc.2 % workout_types.length) ""
        (acc.1 ++ [(day, Json.obj
            (fallbackWorkout wt ((objGet day_avail "duration").getD (.str "45 minutes"))))],
         acc.2 + 1)
      else
        (acc.1 ++ [(day, Json.obj restDay)], acc.2))
    ([], 0)).1

/-- Helper for writing the hardcoded emergency schedule entries. -/
def workoutEntry (t d f i det l : String) : Json :=
  .obj [("type", .str t), ("duration", .str d), ("focus", .str f),
        ("intensity", .str i), ("details", .str det), ("location", .str l)]

/-- `MicroPlannerAgent._create_emergency_fallback`: the hardcoded schedule
used when the stage's try block raises. -/
def create_emergency_fallback : JsonObj :=
  [("Monday", workoutEntry "Strength" "45 min" "Upper body" "Moderate" "Basic strength training" "Home"),
   ("Tuesday", workoutEntry "Rest" "N/A" "Recovery" "Rest" "Rest day" "N/A"),
   ("Wednesday", workoutEntry "Cardio" "30 min" "Endurance" "Moderate" "Basic cardio workout" "Home"),
   ("Thursday", workoutEntry "Rest" "N/A" "Recovery" "Rest" "Rest day" "N/A"),
   ("Friday", workoutEntry "Strength" "45 min" "Lower body" "Moderate" "Basic strength training" "Home"),
   ("Saturday", workoutEntry "Flexibility" "30 min" "Mobility" "Low" "Stretching and mobility" "Home"),
   ("Sunday", workoutEntry "Rest" "N/A" "Recovery" "Rest" "Rest day" "N/A")]

/-- The JSON-extraction step of `MicroPlannerAgent.process`: take the
substring from the first `{` to the last `}` and run `json.loads` on it.
`parse` models `json.loads` at this call site (a parse of a document
starting with `{` yields an object when it succeeds); `none` covers both
"no bracketed region" (`ValueError`) and a `JSONDecodeError`. -/
def extract_micro_json (parse : String → Option JsonObj) (resp : String) :
    Option JsonObj :=
  match strFindIdx resp '{', strRFindIdx resp '}' with
  | some js, some je =>
      if js < je + 1 then parse (pySlice resp js (je + 1)) else none
  | _, _ => none

/-- The external effects one run of `MicroPlannerAgent.process` can
observe: the service outcome, the `json.loads` behaviour, the Plan Store
save outcome, and the timestamp-derived values. -/
structure MicroEnv where
  llm : LLMOutcome
  parse : String → Option JsonObj
  save : SaveOutcome
  scheduleId : String
  createdAt : String

/-- The `schedule_data` dict built by `MicroPlannerAgent.process`. -/
def microScheduleData (env : MicroEnv) (macroPlan : String)
    (validated : JsonObj) (ua : Availability) : JsonObj :=
  [("schedule_id", .str env.scheduleId),
   ("macro_plan", .str macroPlan),
   ("micro_plan", .obj validated),
   ("user_availability", .obj (ua.map (fun p => (p.1, Json.obj p.2)))),
   ("created_at", .str env.createdAt),
   ("status", .str "draft")]

/-- `MicroPlannerAgent.process`.  The outer `except Exception` makes the
stage total: a raised service call or a raised save lands in the
emergency-fallback branch, which replaces `current_micro_plan` with the
hardcoded schedule and appends the degradation message. -/
def micro_process (env : MicroEnv) (s : WState) : WState :=
  let macroPlan := s.current_macro_plan.getD ""
  match env.llm with
  | .throws e =>
      { s with current_micro_plan := some (.obj create_emergency_fallback),
               messages := s.messages ++ [.microFallback e] }
  | .returns resp =>
      let weekly_schedule :=
        match extract_micro_json env.parse resp with
        | some j => j
        | none => create_fallback_schedule s.user_availability
      let validated := validate_schedule weekly_schedule
      let schedData := microScheduleData env macroPlan validated s.user_availability
      if s.hasStorage then
        match env.save with
        | .ok =>
            { s with current_micro_plan := some (.obj validated),
                     active_schedule := some schedData,
                     messages := s.messages ++ [.weeklyScheduleCreated validated] }
        | .raises e =>
            { s with current_micro_plan := some (.obj create_emergency_fallback),
                     messages := s.messages ++ [.microFallback e] }
      else
        { s with current_micro_plan := some (.obj validated),
                 messages := s.messages ++ [.weeklyScheduleCreated validated] }

/-! ### The other agents

Only `MicroPlannerAgent.process` wraps its `chain.invoke` in a
`try/except`; in every other agent the try blocks cover only JSON
parsing, so a raised service call escapes the stage.  Those stages are
therefore embedded as `Except`-valued functions, `.error` being an
uncaught Python exception. -/

/-- `MacroPlannerAgent.process`: no exception handling at all. -/
def macro_process (llm : LLMOutcome) (s : WState) : Except String WState :=
  match llm with
  | .throws e => .error e
  | .returns txt =>
      .ok { s with current_macro_plan := some txt,
                   messages := s.messages ++ [.macroPlanCreated txt] }

/-- Python `existing.update(new)` on two dicts. -/
def objUpdate (ex ni : JsonObj) : JsonObj :=
  ni.foldl (fun acc p => objSet acc p.1 p.2) ex

/-- How a JSON value behaves as a Python dict key: `arr`/`obj` are
unhashable (`none`); other values are hashable and are stored under their
JSON rendering — the PlanState contract is a JSON-compatible object tree,
and `json.dumps` performs exactly this key coercion on the next
serialization. -/
def pyKeyRender : Json → Option String
  | .str s => some s
  | .num n => some (toString n)
  | .bool true => some "true"
  | .bool false => some "false"
  | .null => some "null"
  | _ => none

/-- `d.update(seq)` over a sequence argument, per CPython's dict-update
protocol: each element must be a two-item sequence (a 2-character string
gives its two characters; a 2-element array gives key/value, the key
hashable; a dict iterates to its keys, so a 2-key dict gives its two key
strings).  A wrong-length element raises `ValueError`; a non-sequence
element or an unhashable key raises `TypeError`.  The first raise wins. -/
def pyDictUpdateSeq (d : JsonObj) : List Json → Except String JsonObj
  | [] => .ok d
  | e :: rest =>
      match e with
      | .str t =>
          match t.data with
          | [k, v] => pyDictUpdateSeq (objSet d (String.mk [k]) (.str (String.mk [v]))) rest
          | _ => .error "ValueError"
      | .arr [k, v] =>
          match pyKeyRender k with
          | some ks => pyDictUpdateSeq (objSet d ks v) rest
          | none => .error "TypeError"
      | .arr _ => .error "ValueError"
      | .obj [(k1, _), (k2, _)] => pyDictUpdateSeq (objSet d k1 (.str k2)) rest
      | .obj _ => .error "ValueError"
      | _ => .error "TypeError"

/-- Python `d.update(j)` for a dict `d` and an arbitrary JSON argument:
a dict argument merges key by key; a string iterates to its characters;
an array follows the sequence-of-pairs protocol; anything else raises
`TypeError`.  `.error` carries the exception class. -/
def pyDictUpdate (d : JsonObj) : Json → Except String JsonObj
  | .obj ni => .ok (objUpdate d ni)
  | .arr xs => pyDictUpdateSeq d xs
  | .str t => pyDictUpdateSeq d (t.data.map (fun c => Json.str (String.mk [c])))
  | _ => .error "TypeError"

/-- The pre-invoke block of `ProfileSetupAgent.process`:
`user_input = state.get("user_profile", {})` (which is `None` when the
profile key holds `None`), then, when the messages list is non-empty,
`user_input.update(json.loads(latest_message.content))` inside a
`try/except (json.JSONDecodeError, TypeError)`.  When the profile is not
a dict, the `.update` attribute lookup raises an uncaught
`AttributeError`; a malformed update sequence raises an uncaught
`ValueError`; a parse failure or a `TypeError` is caught and skipped. -/
def profile_setup_preamble (parse : String → Option Json) (s : WState) :
    Except String Unit :=
  match s.messages.getLast? with
  | none => .ok ()
  | some m =>
      match s.user_profile with
      | some (.obj ex) =>
          match parse (msgContent m) with
          | none => .ok ()
          | some j =>
              match pyDictUpdate ex j with
              | .error "ValueError" => .error "ValueError"
              | _ => .ok ()
      | _ => .error "AttributeError"

/-- The invoke-and-store part of `ProfileSetupAgent.process`: `parse`
models `json.loads` on the response (any JSON value); on parse failure
the raw response is stored under the `raw_profile` fallback key. -/
def profile_setup_invoke (llm : LLMOutcome) (parse : String → Option Json)
    (s : WState) : Except String WState :=
  match llm with
  | .throws e => .error e
  | .returns resp =>
      let newProfile : Json :=
        match parse resp with
        | some j => j
        | none => .obj [("raw_profile", .str resp)]
      .ok { s with user_profile := some newProfile,
                   messages := s.messages ++ [.profileProcessed newProfile] }

/-- `ProfileSetupAgent.process`: the pre-invoke merge (which can raise an
uncaught `AttributeError` or `ValueError`), then the service call and the
profile store.  The in-place merge of the latest message feeds only the
rendered prompt — both post-invoke branches overwrite `user_profile` —
so it is absorbed into the quantified service outcome; when the merge
raises, the exception escapes before the service is called. -/
def profile_setup_process (llm : LLMOutcome) (parse : String → Option Json)
    (s : WState) : Except String WState :=
  match profile_setup_preamble parse s with
  | .error e => .error e
  | .ok _ => profile_setup_invoke llm parse s

/-- `ProfileUpdateAgent.process`.  `new_info` comes from the latest
message (parsed as JSON, else wrapped under a `feedback` key; computing it
cannot raise).  On a response-parse failure the stage falls back to
`existing_profile.update(new_info)` inside the `except` handler, where
nothing is caught: a missing or non-dict profile raises `AttributeError`,
and a non-dict `new_info` follows the dict-update protocol
(`TypeError`/`ValueError`/merge). -/
def profile_update_process (llm : LLMOutcome) (parse : String → Option Json)
    (s : WState) : Except String WState :=
  let new_info : Json :=
    match s.messages.getLast? with
    | none => .obj []
    | some m =>
        match parse (msgContent m) with
        | some j => j
        | none => .obj [("feedback", .str (msgContent m))]
  match llm with
  | .throws e => .error e
  | .returns resp =>
      match parse resp with
      | some updated =>
          .ok { s with user_profile := some updated,
                       messages := s.messages ++ [.profileUpdated updated] }
      | none =>
          match s.user_profile with
          | some (.obj ex) =>
              match pyDictUpdate ex new_info with
              | .ok merged =>
                  .ok { s with user_profile := some (.obj merged),
                               messages := s.messages ++ [.profileUpdated (.obj merged)] }
              | .error e => .error e
          | _ => .error "AttributeError"

/-- The annotate branch of `ScheduleOptimizerAgent.process` (the bodies of
its `else` and `except` handlers are identical): attach the response text
to the draft dict under `optimization_notes`, or leave a non-dict draft
untouched. -/
def optimizer_annotate (resp : String) (s : WState) : WState :=
  match s.current_micro_plan with
  | some (.obj kvs) =>
      { s with current_micro_plan :=
                 some (.obj (objSet kvs "optimization_notes" (.str resp))),
               messages := s.messages ++ [.scheduleOptimized resp] }
  | _ => { s with messages := s.messages ++ [.scheduleOptimized resp] }

/-- `ScheduleOptimizerAgent.process`.  The try block covers only the JSON
parse: a response whose first non-whitespace character is `{` and which
parses replaces `current_micro_plan` verbatim; any other response is
attached to the draft dict under `optimization_notes`; a raised service
call escapes. -/
def optimizer_process (llm : LLMOutcome) (parse : String → Option JsonObj)
    (s : WState) : Except String WState :=
  match llm with
  | .throws e => .error e
  | .returns resp =>
      if stripStartsWithBrace resp then
        match parse resp with
        | some j =>
            .ok { s with current_micro_plan := some (.obj j),
                         messages := s.messages ++ [.scheduleOptimized resp] }
        | none => .ok (optimizer_annotate resp s)
      else .ok (optimizer_annotate resp s)

/-- `state.get("active_schedule", {}).get("schedule_id", "unknown")`. -/
def scheduleVersionOf (s : WState) : Json :=
  match s.active_schedule with
  | some sch => (objGet sch "schedule_id").getD (.str "unknown")
  | none => .str "unknown"

/-- `FeedbackProcessorAgent.process`: analyses the latest human message,
appends a feedback entry to the history; the service call is unguarded. -/
def feedback_process (llm : LLMOutcome) (now : String) (s : WState) :
    Except String WState :=
  match llm with
  | .throws e => .error e
  | .returns analysis =>
      let latest := ((s.messages.reverse.find? isHumanMsg).map msgContent).getD ""
      let entry : JsonObj :=
        [("feedback", .str latest), ("analysis", .str analysis),
         ("timestamp", .str now), ("schedule_version", scheduleVersionOf s)]
      .ok { s with feedback_history := s.feedback_history ++ [entry],
                   latest_feedback := some entry,
                   messages := s.messages ++ [.feedbackAnalyzed analysis] }

/-! ### The workflow engine (`core/graph.py`) -/

/-- LangGraph's terminal sentinel. -/
def END : String := "__end__"

/-- `route_workflow`: the conditional router evaluated after the
`profile_setup` node runs. -/
def route_workflow (stage : String) : String :=
  if stage == "profile_setup" then "profile_setup"
  else if stage == "profile_update" then "profile_update"
  else if stage == "macro_planning" then "macro_planning"
  else if stage == "micro_planning" then "micro_planning"
  else if stage == "schedule_optimization" then "schedule_optimization"
  else if stage == "feedback" then "feedback_processing"
  else END

/-- The destination mapping given to `add_conditional_edges` for the
`profile_setup` node.  A router return value outside this mapping is a
LangGraph runtime error. -/
def profile_setup_edge_map : List (String × String) :=
  [("profile_setup", "profile_setup"), ("macro_planning", "macro_planning"),
   ("micro_planning", "micro_planning"),
   ("schedule_optimization", "schedule_optimization"), (END, END)]

/-- `route_after_macro_planning`. -/
def route_after_macro_planning (s : WState) : String :=
  if s.workflow_stage == "micro_planning" then "micro_planning" else END

/-- The per-node external behaviours for one engine run (each node runs at
most once in the runs analysed, apart from the `profile_setup` self-loop). -/
structure AgentEnv where
  profileSetupLLM : LLMOutcome
  profileSetupParse : String → Option Json
  profileUpdateLLM : LLMOutcome
  profileUpdateParse : String → Option Json
  macroLLM : LLMOutcome
  micro : MicroEnv
  optimizerLLM : LLMOutcome
  optimizerParse : String → Option JsonObj
  feedbackLLM : LLMOutcome
  feedbackNow : String

/-- Run one graph node: execute its agent body, then compute the next node
(or `END`) from the graph's conditional and static edges.  `.error` is an
exception escaping the run (an agent raise or an unmapped router result). -/
def runNode (env : AgentEnv) (node : String) (s : WState) :
    Except String (WState × String) :=
  if node == "profile_setup" then
    (profile_setup_process env.profileSetupLLM env.profileSetupParse s).bind
      (fun s' =>
        match (profile_setup_edge_map.find?
                (fun p => p.1 == route_workflow s'.workflow_stage)).map (fun p => p.2) with
        | some nxt => .ok (s', nxt)
        | none => .error "unmapped conditional edge")
  else if node == "profile_update" then
    (profile_update_process env.profileUpdateLLM env.profileUpdateParse s).map
      (fun s' => (s', END))
  else if node == "macro_planning" then
    (macro_process env.macroLLM s).map
      (fun s' => (s', route_after_macro_planning s'))
  else if node == "micro_planning" then
    .ok (micro_process env.micro s, "schedule_optimization")
  else if node == "schedule_optimization" then
    (optimizer_process env.optimizerLLM env.optimizerParse s).map
      (fun s' => (s', END))
  else if node == "feedback_processing" then
    (feedback_process env.feedbackLLM env.feedbackNow s).map
      (fun s' => (s', "micro_planning"))
  else .error "unknown node"

/-- The engine loop with fuel (LangGraph's recursion limit):
`.ok none` means the limit was hit before reaching `END`,
`.ok (some final)` is a completed run, `.error` an escaped exception. -/
def runEngine (env : AgentEnv) : Nat → String → WState → Except String (Option WState)
  | 0, _, _ => .ok none
  | n + 1, node, s =>
      if node == END then .ok (some s)
      else (runNode env node s).bind (fun r => runEngine env n r.2 r.1)

/-- `graph.invoke`: a run always enters at the `profile_setup` node. -/
def graph_invoke (env : AgentEnv) (fuel : Nat) (s : WState) :
    Except String (Option WState) :=
  runEngine env fuel "profile_setup" s

/-! ### The Plan Store (`storage/persistence.py`)

The per-user slice of the on-disk store: each JSON file keyed by the id
embedded in its filename becomes an association-list entry.  Writing a
file whose name already exists overwrites it in place. -/

/-- The persisted macro-plan record (`macro_data`). -/
structure StoredMacro where
  plan_id : String
  macro_plan : String
  created_at : String
  status : String

/-- The persisted weekly-schedule record wrapper (`schedule_data`). -/
structure StoredSchedule where
  schedule : JsonObj
  created_at : String
  status : String

/-- The files of one user's Plan Store, keyed by the id in the filename. -/
structure Store where
  macros : List (String × StoredMacro)
  schedules : List (String × StoredSchedule)

/-- Write a file: overwrite the entry with this key if it exists, create
it otherwise. -/
def listSet {α : Type} (l : List (String × α)) (k : String) (v : α) :
    List (String × α) :=
  if l.any (fun p => p.1 == k) then
    l.map (fun p => if p.1 == k then (k, v) else p)
  else
    l ++ [(k, v)]

/-- `FitnessCoachStorage.save_macro_plan`: rewrite every stored macro plan
with status `inactive`, then write the new plan with status `active`.
`plan_id`/`now` carry the timestamp-derived values. -/
def save_macro_plan (st : Store) (plan_id text now : String) : Store :=
  let deact := st.macros.map (fun p => (p.1, { p.2 with status := "inactive" }))
  { st with macros := listSet deact plan_id ⟨plan_id, text, now, "active"⟩ }

/-- `FitnessCoachStorage.get_active_macro_plan`: the first stored macro
plan whose status is `active`, if any. -/
def get_active_macro_plan (st : Store) : Option StoredMacro :=
  (st.macros.find? (fun p => p.2.status == "active")).map (fun p => p.2)

/-- `FitnessCoachStorage.set_schedule_active`: rewrite every stored
schedule with status `inactive`, then, if a file for `schedule_id`
exists, rewrite it with status `active`. -/
def set_schedule_active (st : Store) (schedule_id : String) : Store :=
  let deact := st.schedules.map (fun p => (p.1, { p.2 with status := "inactive" }))
  if deact.any (fun p => p.1 == schedule_id) then
    { st with schedules :=
        deact.map (fun p =>
          if p.1 == schedule_id then (p.1, { p.2 with status := "active" }) else p) }
  else
    { st with schedules := deact }

/-! ### Observable predicates over schedules -/

/-- A day's value is a workout record carrying all six required fields. -/
def isWorkoutComplete : Json → Bool
  | .obj w => requiredFields.all (fun f => objHas w f)
  | _ => false

/-- The seven-weekday completeness invariant on a `microPlan` dict: its
keys are exactly the seven canonical weekdays and every day's record has
all six fields present. -/
def isCompleteSchedule (plan : JsonObj) : Bool :=
  (plan.map Prod.fst == requiredDays) && plan.all (fun e => isWorkoutComplete e.2)

/-- The string stored under `field` of the record at `day`, when both exist. -/
def dayField (plan : JsonObj) (day field : String) : Option String :=
  match objGet plan day with
  | some (.obj w) =>
      match objGet w field with
      | some (.str s) => some s
      | _ => none
  | _ => none

/-- The `type` string of a daily workout record. -/
def entryType : Json → Option String
  | .obj w =>
      match objGet w "type" with
      | some (.str s) => some s
      | _ => none
  | _ => none

/-- How many entries of the plan carry a workout whose `type` is not `Rest`. -/
def countNonRest (plan : JsonObj) : Nat :=
  (plan.filter (fun e => entryType e.2 != some "Rest")).length

/-- How many entries of the plan carry `type = Rest`. -/
def countRest (plan : JsonObj) : Nat :=
  (plan.filter (fun e => entryType e.2 == some "Rest")).length

/-! ### Lemmas about the validation step -/

theorem objHas_fillField_of (acc : JsonObj) (f k : String)
    (h : objHas acc k = true) : objHas (fillField acc f) k = true := by
  unfold fillField
  split
  · exact h
  · simp only [objHas, List.any_append] at h ⊢
    simp [h]

theorem objHas_foldl_fillField_of (fs : List String) (acc : JsonObj) (k : String)
    (h : objHas acc k = true) : objHas (fs.foldl fillField acc) k = true := by
  induction fs generalizing acc with
  | nil => exact h
  | cons f fs ih => exact ih _ (objHas_fillField_of _ _ _ h)

theorem objHas_fillField_self (acc : JsonObj) (f : String) :
    objHas (fillField acc f) f = true := by
  unfold fillField
  split
  · assumption
  · simp [objHas, List.any_append]

theorem objHas_foldl_fillField (fs : List String) (acc : JsonObj) (f : String)
    (hf : f ∈ fs) : objHas (fs.foldl fillField acc) f = true := by
  induction fs generalizing acc with
  | nil => cases hf
  | cons g gs ih =>
    rcases List.mem_cons.mp hf with rfl | h
    · exact objHas_foldl_fillField_of gs _ _ (objHas_fillField_self acc f)
    · exact ih _ h

theorem validateDay_fst (sched : JsonObj) (day : String) :
    (validateDay sched day).1 = day := by
  unfold validateDay
  split <;> rfl

theorem map_fst_validateDay (sched : JsonObj) (days : List String) :
    (days.map (validateDay sched)).map Prod.fst = days := by
  induction days with
  | nil => rfl
  | cons d ds ih => simp [validateDay_fst, ih]

theorem validateDay_complete (sched : JsonObj) (day : String) :
    isWorkoutComplete (validateDay sched day).2 = true := by
  unfold validateDay
  split
  · rename_i w _
    show isWorkoutComplete (Json.obj (fillRequiredFields w)) = true
    unfold isWorkoutComplete
    rw [List.all_eq_true]
    intro f hf
    exact objHas_foldl_fillField requiredFields w f hf
  · rfl

/-- The core invariant of `_validate_schedule`: whatever dict comes in,
the result is seven-weekday complete. -/
theorem isCompleteSchedule_validate (sched : JsonObj) :
    isCompleteSchedule (validate_schedule sched) = true := by
  unfold isCompleteSchedule
  rw [Bool.and_eq_true]
  constructor
  · rw [show (validate_schedule sched).map Prod.fst = requiredDays from
        map_fst_validateDay sched requiredDays]
    exact beq_self_eq_true requiredDays
  · rw [List.all_eq_true]
    intro e he
    unfold validate_schedule at he
    rw [List.mem_map] at he
    obtain ⟨day, _, rfl⟩ := he
    exact validateDay_complete sched day

theorem isCompleteSchedule_emergency :
    isCompleteSchedule create_emergency_fallback = true := by decide

/-! ### Concrete scenarios from the testable-properties section -/

/-- Availability: Monday available for 45 minutes, all other days unavailable. -/
def mondayOnlyAvailability : Availability :=
  [("Monday", [("available", .bool true), ("duration", .str "45 minutes")]),
   ("Tuesday", [("available", .bool false)]),
   ("Wednesday", [("available", .bool false)]),
   ("Thursday", [("available", .bool false)]),
   ("Friday", [("available", .bool false)]),
   ("Saturday", [("available", .bool false)]),
   ("Sunday", [("available", .bool false)])]

/-- Availability: Monday, Wednesday and Friday available for 45 minutes. -/
def mwfAvailability : Availability :=
  [("Monday", [("available", .bool true), ("duration", .str "45 minutes")]),
   ("Wednesday", [("available", .bool true), ("duration", .str "45 minutes")]),
   ("Friday", [("available", .bool true), ("duration", .str "45 minutes")])]

/-- A fresh PlanState entering a given stage with a given availability. -/
def baseState (stage : String) (ua : Availability) : WState :=
  { user_profile := none
    user_id := some "user1"
    current_macro_plan := none
    current_micro_plan := none
    user_availability := ua
    active_schedule := none
    schedule_history := []
    latest_feedback := none
    feedback_history := []
    workflow_stage := stage
    messages := []
    hasStorage := true }

/-- The schedule the heuristic fallback produces for the
Monday/Wednesday/Friday scenario. -/
def mwfExpected : JsonObj :=
  [("Monday", .obj (fallbackWorkout "Strength" (.str "45 minutes"))),
   ("Tuesday", .obj restDay),
   ("Wednesday", .obj (fallbackWorkout "Cardio" (.str "45 minutes"))),
   ("Thursday", .obj restDay),
   ("Friday", .obj (fallbackWorkout "Flexibility" (.str "45 minutes"))),
   ("Saturday", .obj restDay),
   ("Sunday", .obj restDay)]

/-- Read a field of a day's record out of an optional `current_micro_plan`. -/
def planFieldOf : Option Json → String → String → Option String
  | some (.obj p), day, f => dayField p day f
  | _, _, _ => none

/-! ### C1 -/

/-- C1: for every availability input and every Text Completion Service
behaviour (valid JSON response, arbitrary non-JSON text, or a raised
exception) — indeed for every save outcome as well — the micro-planning
stage leaves a `current_micro_plan` dict whose keys are exactly the seven
canonical weekdays and whose every day carries all six workout fields. -/
theorem micro_plan_seven_day_complete (env : MicroEnv) (s : WState) :
    ∃ p, (micro_process env s).current_micro_plan = some (.obj p) ∧
      isCompleteSchedule p = true := by
  rcases env with ⟨llm, parse, save, sid, cat⟩
  cases llm with
  | throws e =>
      exact ⟨create_emergency_fallback, rfl, isCompleteSchedule_emergency⟩
  | returns resp =>
      show ∃ p, (micro_process ⟨.returns resp, parse, save, sid, cat⟩ s).current_micro_plan
          = some (.obj p) ∧ isCompleteSchedule p = true
      unfold micro_process
      cases hs : s.hasStorage with
      | true =>
          cases save with
          | ok =>
              refine ⟨validate_schedule (match extract_micro_json parse resp with
                | some j => j
                | none => create_fallback_schedule s.user_availability), ?_,
                isCompleteSchedule_validate _⟩
              simp [hs]
          | raises e =>
              refine ⟨create_emergency_fallback, ?_, isCompleteSchedule_emergency⟩
              simp [hs]
      | false =>
          refine ⟨validate_schedule (match extract_micro_json parse resp with
            | some j => j
            | none => create_fallback_schedule s.user_availability), ?_,
            isCompleteSchedule_validate _⟩
          simp [hs]

/-! ### C4 -/

/-- C4 counterexample: in the spec's scenario (Monday-only availability,
service throws), the resulting plan is indeed the hardcoded emergency
fallback, but that fallback carries 4 non-Rest days (Monday, Wednesday,
Friday, Saturday), not the claimed 3. -/
theorem emergency_fallback_not_three_workouts :
    (micro_process ⟨.throws "service down", fun _ => none, .ok, "week_1", "t0"⟩
        (baseState "micro_planning" mondayOnlyAvailability)).current_micro_plan
      = some (.obj create_emergency_fallback) ∧
    countNonRest create_emergency_fallback = 4 ∧
    ¬ countNonRest create_emergency_fallback = 3 := by
  refine ⟨rfl, rfl, by decide⟩

/-- C4 (amended): if the Text Completion Service call raises during Micro
Planning, the stage catches the exception, replaces the plan with the
fixed hardcoded emergency fallback and logs the degradation; that fallback
is a 4-workout/3-rest week (Strength Monday, Cardio Wednesday, Strength
Friday, Flexibility Saturday; Rest on Tuesday, Thursday, Sunday). -/
theorem micro_throw_gives_emergency_fallback (e : String)
    (parse : String → Option JsonObj) (save : SaveOutcome) (sid cat : String)
    (s : WState) :
    micro_process ⟨.throws e, parse, save, sid, cat⟩ s
      = { s with current_micro_plan := some (.obj create_emergency_fallback),
                 messages := s.messages ++ [.microFallback e] } ∧
    countNonRest create_emergency_fallback = 4 ∧
    countRest create_emergency_fallback = 3 ∧
    dayField create_emergency_fallback "Monday" "type" = some "Strength" ∧
    dayField create_emergency_fallback "Wednesday" "type" = some "Cardio" ∧
    dayField create_emergency_fallback "Friday" "type" = some "Strength" ∧
    dayField create_emergency_fallback "Saturday" "type" = some "Flexibility" := by
  exact ⟨rfl, rfl, rfl, rfl, rfl, rfl, rfl⟩

/-! ### C5 -/

/-- C5: when the model returns the literal text
`"I cannot help with that."` (no bracketed JSON region) and availability
marks Monday, Wednesday and Friday available with duration `45 minutes`,
the resulting plan round-robins Strength/Cardio/Flexibility over those
days with the supplied duration and gives the other four days the Rest
record — whatever `json.loads` would do elsewhere, whether or not a store
is attached. -/
theorem micro_garbage_text_round_robin (parse : String → Option JsonObj)
    (sid cat : String) (st : Bool) :
    (micro_process ⟨.returns "I cannot help with that.", parse, .ok, sid, cat⟩
        { baseState "micro_planning" mwfAvailability with hasStorage := st }).current_micro_plan
      = some (.obj mwfExpected) ∧
    dayField mwfExpected "Monday" "type" = some "Strength" ∧
    dayField mwfExpected "Wednesday" "type" = some "Cardio" ∧
    dayField mwfExpected "Friday" "type" = some "Flexibility" ∧
    dayField mwfExpected "Monday" "duration" = some "45 minutes" ∧
    dayField mwfExpected "Tuesday" "type" = some "Rest" ∧
    dayField mwfExpected "Thursday" "type" = some "Rest" ∧
    dayField mwfExpected "Saturday" "type" = some "Rest" ∧
    dayField mwfExpected "Sunday" "type" = some "Rest" := by
  cases st with
  | true => exact ⟨rfl, rfl, rfl, rfl, rfl, rfl, rfl, rfl, rfl⟩
  | false => exact ⟨rfl, rfl, rfl, rfl, rfl, rfl, rfl, rfl, rfl⟩

/-! ### C6 -/

/-- C6 counterexample: in the Monday/Wednesday/Friday garbage-response
scenario with a raising save, the plan that was computed and validated
before the save (`Strength training` focus on Monday) is NOT the stage's
result — the outer exception handler replaces it with the emergency
fallback (`Upper body` focus on Monday). -/
theorem save_failure_discards_validated_plan :
    planFieldOf (micro_process
        ⟨.returns "I cannot help with that.", fun _ => none, .raises "disk full",
         "week_1", "t0"⟩
        (baseState "micro_planning" mwfAvailability)).current_micro_plan
      "Monday" "focus" = some "Upper body" ∧
    planFieldOf (some (.obj (validate_schedule (create_fallback_schedule mwfAvailability))))
      "Monday" "focus" = some "Strength training" ∧
    (micro_process
        ⟨.returns "I cannot help with that.", fun _ => none, .raises "disk full",
         "week_1", "t0"⟩
        (baseState "micro_planning" mwfAvailability)).current_micro_plan
      ≠ some (.obj (validate_schedule (create_fallback_schedule mwfAvailability))) := by
  refine ⟨rfl, rfl, fun h => ?_⟩
  have h3 : (some "Upper body" : Option String) = some "Strength training" :=
    congrArg (fun o => planFieldOf o "Monday" "focus") h
  exact absurd h3 (by decide)

/-- C6 (amended): a raised Plan Store save during Micro Planning is
non-fatal — the stage returns a state rather than propagating the
exception, and it appends a log entry carrying the error text — but the
microPlan computed and validated before the save is not kept: the outer
handler replaces it with the hardcoded emergency fallback, and
`active_schedule` is left unchanged. -/
theorem micro_save_failure_nonfatal_but_replaces_plan (env : MicroEnv)
    (s : WState) (resp e : String)
    (hllm : env.llm = .returns resp) (hsave : env.save = .raises e)
    (hst : s.hasStorage = true) :
    micro_process env s
      = { s with current_micro_plan := some (.obj create_emergency_fallback),
                 messages := s.messages ++ [.microFallback e] } ∧
    (micro_process env s).active_schedule = s.active_schedule := by
  rcases env with ⟨llm, parse, save, sid, cat⟩
  cases hllm
  cases hsave
  constructor
  · unfold micro_process
    simp [hst]
  · unfold micro_process
    simp [hst]

/-- Witness for the amended C6 theorem at a concrete input. -/
theorem micro_save_failure_nonfatal_but_replaces_plan_witness :
    micro_process ⟨.returns "x", fun _ => none, .raises "disk full", "w", "t"⟩
        (baseState "micro_planning" mwfAvailability)
      = { baseState "micro_planning" mwfAvailability with
            current_micro_plan := some (.obj create_emergency_fallback),
            messages := [.microFallback "disk full"] } ∧
    (micro_process ⟨.returns "x", fun _ => none, .raises "disk full", "w", "t"⟩
        (baseState "micro_planning" mwfAvailability)).active_schedule = none :=
  micro_save_failure_nonfatal_but_replaces_plan
    ⟨.returns "x", fun _ => none, .raises "disk full", "w", "t"⟩
    (baseState "micro_planning" mwfAvailability) "x" "disk full" rfl rfl rfl

/-! ### C10 -/

/-- C10: in Schedule Optimization, a response whose stripped text starts
with `{` and parses as JSON replaces the draft `current_micro_plan`
verbatim — whatever object `j` the parse yields, with no weekday or field
validation — and in every other case the draft dict is kept unchanged
except that the response text is attached under `optimization_notes`. -/
theorem optimizer_replace_or_annotate (s : WState) (resp : String)
    (parse : String → Option JsonObj) (kvs : JsonObj)
    (hdraft : s.current_micro_plan = some (.obj kvs)) :
    (∀ j, stripStartsWithBrace resp = true → parse resp = some j →
        optimizer_process (.returns resp) parse s
          = .ok { s with current_micro_plan := some (.obj j),
                         messages := s.messages ++ [.scheduleOptimized resp] }) ∧
    ((stripStartsWithBrace resp = false ∨ parse resp = none) →
        optimizer_process (.returns resp) parse s
          = .ok { s with
                    current_micro_plan :=
                      some (.obj (objSet kvs "optimization_notes" (.str resp))),
                    messages := s.messages ++ [.scheduleOptimized resp] }) := by
  constructor
  · intro j hb hp
    unfold optimizer_process
    simp [hb, hp]
  · rintro (hb | hp)
    · unfold optimizer_process
      simp [hb, optimizer_annotate, hdraft]
    · unfold optimizer_process
      cases hb : stripStartsWithBrace resp with
      | false => simp [hb, optimizer_annotate, hdraft]
      | true => simp [hb, hp, optimizer_annotate, hdraft]

/-- Witness for the C10 theorem at a concrete input: a parsing `{}`-shaped
response replaces the draft verbatim. -/
theorem optimizer_replace_or_annotate_witness :
    optimizer_process (.returns "{}") (fun _ => some [("Z", Json.null)])
        { baseState "schedule_optimization" [] with
            current_micro_plan := some (.obj [("Monday", .obj restDay)]) }
      = .ok { baseState "schedule_optimization" [] with
                current_micro_plan := some (.obj [("Z", Json.null)]),
                messages := [.scheduleOptimized "{}"] } :=
  (optimizer_replace_or_annotate
      { baseState "schedule_optimization" [] with
          current_micro_plan := some (.obj [("Monday", .obj restDay)]) }
      "{}" (fun _ => some [("Z", Json.null)]) [("Monday", .obj restDay)] rfl).1
    [("Z", Json.null)] rfl rfl

/-! ### C2 -/

/-- The service behaviour used for the C2 counterexample run: the
profile-setup call succeeds, every other service call raises. -/
def throwEnv : AgentEnv :=
  { profileSetupLLM := .returns "p"
    profileSetupParse := fun _ => none
    profileUpdateLLM := .throws "svc"
    profileUpdateParse := fun _ => none
    macroLLM := .throws "svc"
    micro := ⟨.throws "svc", fun _ => none, .ok, "w", "t"⟩
    optimizerLLM := .throws "svc"
    optimizerParse := fun _ => none
    feedbackLLM := .throws "svc"
    feedbackNow := "t" }

/-- C2 counterexample: a raised service call in Macro Planning escapes the
stage, and the engine run entered at `macro_planning` terminates with that
exception instead of a degraded state — no fallback, no log entry. -/
theorem macro_throw_escapes_engine :
    macro_process (.throws "svc") (baseState "macro_planning" []) = .error "svc" ∧
    graph_invoke throwEnv 5 (baseState "macro_planning" []) = .error "svc" := by
  exact ⟨rfl, rfl⟩

/-- C2 (amended): only Micro Planning recovers locally from a raised Text
Completion Service call (emergency fallback plus log entry); in
ProfileSetup, ProfileUpdate, MacroPlanning, ScheduleOptimization and
FeedbackProcessing an exception escapes the stage — their try blocks
recover only from malformed output, not from a raised call.  For
ProfileSetup the escaping exception is the service's own when the
pre-invoke profile merge completes (e.g. with no pending message); on
states where that merge itself raises (missing/non-dict profile with a
pending message), its `AttributeError`/`ValueError` escapes before the
service is called — either way the stage propagates an exception and
produces no fallback. -/
theorem only_micro_recovers_from_service_throw (e : String) (s : WState)
    (pparse : String → Option Json) (oparse : String → Option JsonObj)
    (now : String) (menv : MicroEnv) (hm : menv.llm = .throws e) :
    (∃ e2, profile_setup_process (.throws e) pparse s = .error e2) ∧
    (s.messages = [] → profile_setup_process (.throws e) pparse s = .error e) ∧
    profile_update_process (.throws e) pparse s = .error e ∧
    macro_process (.throws e) s = .error e ∧
    optimizer_process (.throws e) oparse s = .error e ∧
    feedback_process (.throws e) now s = .error e ∧
    micro_process menv s
      = { s with current_micro_plan := some (.obj create_emergency_fallback),
                 messages := s.messages ++ [.microFallback e] } := by
  rcases menv with ⟨llm, parse, save, sid, cat⟩
  cases hm
  refine ⟨?_, ?_, rfl, rfl, rfl, rfl, rfl⟩
  · unfold profile_setup_process
    cases hpre : profile_setup_preamble pparse s with
    | error e2 => exact ⟨e2, rfl⟩
    | ok u => exact ⟨e, rfl⟩
  · intro hmsg
    unfold profile_setup_process profile_setup_preamble
    rw [hmsg]
    rfl

/-- Witness for the amended C2 theorem at a concrete input. -/
theorem only_micro_recovers_from_service_throw_witness :
    profile_setup_process (.throws "svc") (fun _ => none)
      (baseState "profile_setup" []) = .error "svc" ∧
    macro_process (.throws "svc") (baseState "macro_planning" []) = .error "svc" ∧
    micro_process ⟨.throws "svc", fun _ => none, .ok, "w", "t"⟩
        (baseState "micro_planning" [])
      = { baseState "micro_planning" [] with
            current_micro_plan := some (.obj create_emergency_fallback),
            messages := [.microFallback "svc"] } := by
  have h := only_micro_recovers_from_service_throw "svc" (baseState "profile_setup" [])
    (fun _ => none) (fun _ => none) "t" ⟨.throws "svc", fun _ => none, .ok, "w", "t"⟩ rfl
  have h2 := only_micro_recovers_from_service_throw "svc" (baseState "macro_planning" [])
    (fun _ => none) (fun _ => none) "t" ⟨.throws "svc", fun _ => none, .ok, "w", "t"⟩ rfl
  have h3 := only_micro_recovers_from_service_throw "svc" (baseState "micro_planning" [])
    (fun _ => none) (fun _ => none) "t" ⟨.throws "svc", fun _ => none, .ok, "w", "t"⟩ rfl
  exact ⟨h.2.1 rfl, h2.2.2.2.1, h3.2.2.2.2.2.2⟩

/-! ### Engine lemmas (shared helpers for the routing/termination claims) -/

theorem micro_preserves_stage (env : MicroEnv) (s : WState) :
    (micro_process env s).workflow_stage = s.workflow_stage := by
  rcases env with ⟨llm, parse, save, sid, cat⟩
  cases llm with
  | throws e => rfl
  | returns resp =>
      unfold micro_process
      cases hs : s.hasStorage <;> cases save <;> simp [hs]

theorem filter_active_deact_sched (l : List (String × StoredSchedule)) :
    (l.map (fun p => (p.1, { p.2 with status := "inactive" }))).filter
      (fun p => p.2.status == "active") = [] := by
  induction l with
  | nil => rfl
  | cons x xs ih => simp [List.filter_cons, ih]

theorem active_keys_after_react (l : List (String × StoredSchedule)) (sid : String) :
    (((l.map (fun p => (p.1, { p.2 with status := "inactive" }))).map
        (fun p => if p.1 == sid then (p.1, { p.2 with status := "active" }) else p)).filter
      (fun p => p.2.status == "active")).map Prod.fst
    = (l.map Prod.fst).filter (fun k => k == sid) := by
  induction l with
  | nil => rfl
  | cons x xs ih =>
      rcases x with ⟨k, v⟩
      by_cases hk : k = sid
      · subst hk
        simp only [List.map_cons, List.filter_cons]
        simpa using ih
      · simp only [List.map_cons, List.filter_cons]
        simpa [hk] using ih

theorem inactive_unless_named (l : List (String × StoredSchedule)) (sid : String) :
    ∀ p ∈ (l.map (fun p => (p.1, { p.2 with status := "inactive" }))).map
        (fun p => if p.1 == sid then (p.1, { p.2 with status := "active" }) else p),
      p.1 ≠ sid → p.2.status = "inactive" := by
  intro p hp hne
  obtain ⟨q, hq, rfl⟩ := List.mem_map.mp hp
  obtain ⟨r, hr, rfl⟩ := List.mem_map.mp hq
  by_cases hk : (r.1 == sid) = true
  · exfalso
    apply hne
    simp [hk]
    exact (beq_iff_eq.mp (by simpa using hk))
  · simp [hk]

theorem nodup_filter_beq (l : List String) (a : String) (hnd : l.Nodup) (ha : a ∈ l) :
    l.filter (fun x => x == a) = [a] := by
  induction l with
  | nil => cases ha
  | cons x xs ih =>
      rw [List.filter_cons]
      rcases List.mem_cons.mp ha with rfl | hmem
      · have hnotin : a ∉ xs := (List.nodup_cons.mp hnd).1
        have hrest : xs.filter (fun y => y == a) = [] := by
          rw [List.filter_eq_nil_iff]
          intro b hb hba
          exact hnotin (beq_iff_eq.mp hba ▸ hb)
        simp [hrest]
      · have hne : (x == a) = false := by
          rw [beq_eq_false_iff_ne]
          intro h
          exact (List.nodup_cons.mp hnd).1 (h ▸ hmem)
        simp [hne, ih (List.nodup_cons.mp hnd).2 hmem]

theorem set_schedule_active_eq (st : Store) (sid : String)
    (hany : ((st.schedules.map (fun p => (p.1, { p.2 with status := "inactive" }))).any
        (fun p => p.1 == sid)) = true) :
    (set_schedule_active st sid).schedules
      = (st.schedules.map (fun p => (p.1, { p.2 with status := "inactive" }))).map
          (fun p => if p.1 == sid then (p.1, { p.2 with status := "active" }) else p) := by
  simp only [set_schedule_active]
  rw [if_pos hany]

/-- C8: after `set_schedule_active` on a stored schedule id that exists,
exactly one stored schedule is active — the named one — and every other
stored schedule has status `inactive` (whatever statuses, including a
previously active A, the store held before). -/
theorem set_schedule_active_single_active (st : Store) (sid : String)
    (hnd : (st.schedules.map Prod.fst).Nodup)
    (hmem : st.schedules.any (fun p => p.1 == sid) = true) :
    (((set_schedule_active st sid).schedules.filter
        (fun p => p.2.status == "active")).map Prod.fst = [sid]) ∧
    (∀ p ∈ (set_schedule_active st sid).schedules, p.1 ≠ sid →
        p.2.status = "inactive") := by
  have hany : ((st.schedules.map (fun p => (p.1, { p.2 with status := "inactive" }))).any
      (fun p => p.1 == sid)) = true := by
    rw [List.any_map]
    simpa using hmem
  rw [set_schedule_active_eq st sid hany]
  constructor
  · rw [active_keys_after_react]
    apply nodup_filter_beq _ _ hnd
    obtain ⟨p, hp, hps⟩ := List.any_eq_true.mp hmem
    exact beq_iff_eq.mp hps ▸ List.mem_map_of_mem Prod.fst hp
  · exact inactive_unless_named st.schedules sid

def demoStore : Store :=
  { macros := []
    schedules := [("A", ⟨[], "t1", "active"⟩), ("B", ⟨[], "t2", "inactive"⟩)] }

/-- Witness for the C8 theorem: activating B while A is active leaves
exactly B active. -/
theorem set_schedule_active_single_active_witness :
    (((set_schedule_active demoStore "B").schedules.filter
        (fun p => p.2.status == "active")).map Prod.fst = ["B"]) ∧
    (∀ p ∈ (set_schedule_active demoStore "B").schedules, p.1 ≠ "B" →
        p.2.status = "inactive") :=
  set_schedule_active_single_active demoStore "B" (by decide) (by decide)

theorem filter_active_deact_macro (l : List (String × StoredMacro)) :
    (l.map (fun p => (p.1, { p.2 with status := "inactive" }))).filter
      (fun p => p.2.status == "active") = [] := by
  induction l with
  | nil => rfl
  | cons x xs ih => simp [List.filter_cons, ih]

theorem filter_active_replace_absent (l : List (String × StoredMacro)) (pid : String)
    (rec : StoredMacro) (hno : pid ∉ l.map Prod.fst) :
    ((l.map (fun p => (p.1, { p.2 with status := "inactive" }))).map
        (fun p => if p.1 == pid then (pid, rec) else p)).filter
      (fun p => p.2.status == "active") = [] := by
  induction l with
  | nil => rfl
  | cons x xs ih =>
      rcases x with ⟨k, v⟩
      have hk : ¬ k = pid := fun h => hno (by simp [h])
      simp only [List.map_cons, List.filter_cons]
      simpa [hk] using ih (fun h => hno (List.mem_cons_of_mem _ h))

theorem filter_active_replace_present (l : List (String × StoredMacro)) (pid : String)
    (rec : StoredMacro) (hrec : rec.status = "active")
    (hnd : (l.map Prod.fst).Nodup) (hmem : pid ∈ l.map Prod.fst) :
    ((l.map (fun p => (p.1, { p.2 with status := "inactive" }))).map
        (fun p => if p.1 == pid then (pid, rec) else p)).filter
      (fun p => p.2.status == "active") = [(pid, rec)] := by
  induction l with
  | nil => cases hmem
  | cons x xs ih =>
      rcases x with ⟨k, v⟩
      simp only [List.map_cons] at hnd hmem
      by_cases hk : k = pid
      · subst hk
        have hno : k ∉ xs.map Prod.fst := (List.nodup_cons.mp hnd).1
        simp only [List.map_cons, List.filter_cons]
        simpa [hrec] using filter_active_replace_absent xs k rec hno
      · have hmem' : pid ∈ xs.map Prod.fst := by
          rcases List.mem_cons.mp hmem with h | h
          · exact absurd h.symm hk
          · exact h
        have hnd' : (xs.map Prod.fst).Nodup := (List.nodup_cons.mp hnd).2
        simp only [List.map_cons, List.filter_cons]
        simpa [hk] using ih hnd' hmem'

theorem keys_replace_deact (l : List (String × StoredMacro)) (pid : String)
    (rec : StoredMacro) :
    ((l.map (fun p => (p.1, { p.2 with status := "inactive" }))).map
        (fun p => if p.1 == pid then (pid, rec) else p)).map Prod.fst
      = l.map Prod.fst := by
  induction l with
  | nil => rfl
  | cons x xs ih =>
      rcases x with ⟨k, v⟩
      by_cases hk : k = pid
      · subst hk
        simpa using ih
      · simpa [hk] using ih

theorem active_after_save (st : Store) (pid text now : String)
    (hnd : (st.macros.map Prod.fst).Nodup) :
    (save_macro_plan st pid text now).macros.filter (fun p => p.2.status == "active")
      = [(pid, ⟨pid, text, now, "active"⟩)] := by
  simp only [save_macro_plan, listSet]
  by_cases hany : ((st.macros.map (fun p => (p.1, { p.2 with status := "inactive" }))).any
      (fun p => p.1 == pid)) = true
  · rw [if_pos hany]
    have hmem : pid ∈ st.macros.map Prod.fst := by
      obtain ⟨p, hp, hps⟩ := List.any_eq_true.mp hany
      obtain ⟨q, hq, rfl⟩ := List.mem_map.mp hp
      have hq1 : q.1 = pid := by simpa using hps
      exact hq1 ▸ List.mem_map_of_mem Prod.fst hq
    exact filter_active_replace_present st.macros pid ⟨pid, text, now, "active"⟩ rfl
      hnd hmem
  · rw [if_neg hany]
    rw [List.filter_append, filter_active_deact_macro]
    rfl

theorem save_keys_nodup (st : Store) (pid text now : String)
    (hnd : (st.macros.map Prod.fst).Nodup) :
    ((save_macro_plan st pid text now).macros.map Prod.fst).Nodup := by
  simp only [save_macro_plan, listSet]
  by_cases hany : ((st.macros.map (fun p => (p.1, { p.2 with status := "inactive" }))).any
      (fun p => p.1 == pid)) = true
  · rw [if_pos hany]
    rw [keys_replace_deact]
    exact hnd
  · rw [if_neg hany]
    have hno : pid ∉ st.macros.map Prod.fst := by
      intro hmem
      apply hany
      rw [List.any_map]
      obtain ⟨q, hq, rfl⟩ := List.mem_map.mp hmem
      exact List.any_eq_true.mpr ⟨q, hq, by simp⟩
    rw [List.map_append]
    rw [show ((st.macros.map (fun p => (p.1, ({ p.2 with status := "inactive" } : StoredMacro)))).map Prod.fst)
        = st.macros.map Prod.fst from by
      induction st.macros with
      | nil => rfl
      | cons x xs ih => simp [ih]]
    simp [List.nodup_append, hnd, hno]

/-- `N` sequential `save_macro_plan` calls. -/
def run_saves (st : Store) (saves : List (String × String × String)) : Store :=
  saves.foldl (fun acc t => save_macro_plan acc t.1 t.2.1 t.2.2) st

theorem run_saves_nodup (st : Store) (saves : List (String × String × String))
    (hnd : (st.macros.map Prod.fst).Nodup) :
    ((run_saves st saves).macros.map Prod.fst).Nodup := by
  induction saves generalizing st with
  | nil => exact hnd
  | cons t ts ih => exact ih _ (save_keys_nodup _ _ _ _ hnd)

theorem find?_of_filter_singleton {α : Type} (p : α → Bool) (l : List α) (a : α)
    (h : l.filter p = [a]) : l.find? p = some a := by
  induction l with
  | nil => simp at h
  | cons x xs ih =>
      rw [List.filter_cons] at h
      by_cases hx : p x = true
      · rw [if_pos hx] at h
        injection h with h1 h2
        rw [List.find?_cons_of_pos _ hx, h1]
      · rw [if_neg hx] at h
        rw [List.find?_cons_of_neg _ (by simpa using hx)]
        exact ih h

/-- C9: `save_macro_plan` marks every previously stored macro plan
inactive before writing the new plan as active, so after any sequence of
saves ending with the Nth (distinct plan ids within a save sequence arise
from distinct timestamps; the store's filename keys are duplicate-free),
the Nth saved plan is the only active one and `get_active_macro_plan`
returns exactly it. -/
theorem save_macro_last_save_wins (st : Store) (saves : List (String × String × String))
    (pid text now : String) (hnd : (st.macros.map Prod.fst).Nodup) :
    (run_saves st (saves ++ [(pid, text, now)])).macros.filter
        (fun p => p.2.status == "active")
      = [(pid, ⟨pid, text, now, "active"⟩)] ∧
    get_active_macro_plan (run_saves st (saves ++ [(pid, text, now)]))
      = some ⟨pid, text, now, "active"⟩ := by
  have hfold : run_saves st (saves ++ [(pid, text, now)])
      = save_macro_plan (run_saves st saves) pid text now := by
    rw [run_saves, List.foldl_append]
    rfl
  have hnd' := run_saves_nodup st saves hnd
  have hfilter := active_after_save (run_saves st saves) pid text now hnd'
  rw [hfold]
  refine ⟨hfilter, ?_⟩
  unfold get_active_macro_plan
  rw [find?_of_filter_singleton _ _ _ hfilter]
  rfl

def emptyStore : Store := { macros := [], schedules := [] }

/-- Witness for the C9 theorem: two sequential saves leave only the
second plan active. -/
theorem save_macro_last_save_wins_witness :
    (run_saves emptyStore [("m1", "plan one", "t1"), ("m2", "plan two", "t2")]).macros.filter
        (fun p => p.2.status == "active")
      = [("m2", ⟨"m2", "plan two", "t2", "active"⟩)] ∧
    get_active_macro_plan
        (run_saves emptyStore [("m1", "plan one", "t1"), ("m2", "plan two", "t2")])
      = some ⟨"m2", "plan two", "t2", "active"⟩ :=
  save_macro_last_save_wins emptyStore [("m1", "plan one", "t1")] "m2" "plan two" "t2"
    List.nodup_nil
